import Mathlib

/-
Verification development for the author enrichment service (main.py).

The service resolves catalogue author names against the OpenLibrary
authority, scores candidate matches, extracts a biography, upserts a
normalized document into a search index, and drives a resumable
composite-aggregation backfill cursor over the works index.

Modelling conventions:
* JSON values returned by the authority service and by Elasticsearch are
  modelled by the inductive type `JVal`.  Python dictionary lookup
  `d.get(k)` (which yields `None` both for an absent key and for an
  explicit null) is `pyGetV`; Python truthiness is `pyTruthy`; `a or b`
  is `pyOr`.
* Strings are Lean `String`s; `str.strip()` / `str.lower()` are modelled
  over the ASCII fragment (`Char.isWhitespace` / `Char.toLower`), which
  covers all data exercised by the specification.
* Fields that the OpenLibrary API always delivers as strings/numbers are
  coerced with `asStr` / `asArr`; shapes outside the API contract (for
  which the Python code would raise a TypeError) are mapped to the
  neutral defaults and are never exercised by any theorem below.
* `async` functions are modelled as pure functions of explicit oracles:
  the outcome of each outbound HTTP call is an input of the model
  (`Except`-valued), and the observable effects (fetch calls, upsert
  calls, error log) are returned explicitly.
* The cooperative pacing sleep (`asyncio.sleep`) has no observable value
  in this model and is not represented.
-/

/-- JSON-like values as handled by the Python code (dicts, lists,
strings, integers, booleans, null). -/
inductive JVal where
  | null : JVal
  | str (s : String) : JVal
  | num (n : Int) : JVal
  | bool (b : Bool) : JVal
  | arr (elems : List JVal) : JVal
  | obj (fields : List (String × JVal)) : JVal

/-- Python truthiness of a JSON value: `None`, `""`, `0`, `False`, `[]`
and the empty dict are falsy, everything else is truthy. -/
def pyTruthy : JVal → Bool
  | JVal.null => false
  | JVal.str s => !(s == "")
  | JVal.num n => !(n == 0)
  | JVal.bool b => b
  | JVal.arr l => !l.isEmpty
  | JVal.obj fs => !fs.isEmpty

/-- Python `d.get(k)`: the stored value when the key is present, `None`
otherwise.  On a non-dict (where Python would raise) we return null;
no theorem exercises that case. -/
def pyGetV (d : JVal) (k : String) : JVal :=
  match d with
  | JVal.obj fs => (fs.lookup k).getD JVal.null
  | _ => JVal.null

/-- Python `a or b`. -/
def pyOr (a b : JVal) : JVal :=
  if pyTruthy a then a else b

/-- Dictionary membership-aware lookup: `some v` exactly when the key is
present (even when it is bound to null). -/
def jMember (d : JVal) (k : String) : Option JVal :=
  match d with
  | JVal.obj fs => fs.lookup k
  | _ => none

/-- Coerce a JSON value expected to be a string by the OpenLibrary API
shape; non-strings map to `""` and are not exercised by any theorem. -/
def asStr : JVal → String
  | JVal.str s => s
  | _ => ""

/-- Coerce a JSON value expected to be an array; non-arrays map to `[]`. -/
def asArr : JVal → List JVal
  | JVal.arr l => l
  | _ => []

/-- Python `str.strip()` (ASCII whitespace fragment). -/
def pyStrip (s : String) : String :=
  String.mk (((s.toList.dropWhile Char.isWhitespace).reverse.dropWhile
    Char.isWhitespace).reverse)

/-- Python `str.lower()` (ASCII fragment). -/
def pyLower (s : String) : String :=
  String.mk (s.toList.map Char.toLower)

/-- The normalisation `x.strip().lower()` applied by `score_candidate`
to both the candidate and the target display name. -/
def pyLowerStrip (s : String) : String :=
  pyLower (pyStrip s)

/-- Value of a list of ASCII digit characters read as a decimal integer,
modelling Python `int` applied to the matched digits. -/
def digitsVal (cs : List Char) : Int :=
  cs.foldl (fun a c => 10 * a + ((c.toNat : Int) - 48)) 0

/-- Scan for the first position with four consecutive digit characters
and return their integer value: the embedding of
`re.search(r"\d\d\d\d", s)` (written in the source as a 4-repetition)
followed by `int(m.group(0))`. -/
def scan4 : List Char → Option Int
  | c1 :: c2 :: c3 :: c4 :: rest =>
    if c1.isDigit && c2.isDigit && c3.isDigit && c4.isDigit then
      some (digitsVal [c1, c2, c3, c4])
    else
      scan4 (c2 :: c3 :: c4 :: rest)
  | _ => none

/-- Embedding of `to_year` from main.py: `None`/empty input yields
`None` (the `if not s` guard); otherwise the first four consecutive
digits are returned as an integer. -/
def to_year (s : Option String) : Option Int :=
  match s with
  | none => none
  | some t => if t = "" then none else scan4 t.toList

/-- The `birth_date` field of a candidate as the Python argument passed
to `to_year` (`str(s)` casts a numeric field; null/absent is `None`). -/
def birthDateStr (d : JVal) : Option String :=
  match pyGetV d "birth_date" with
  | JVal.null => none
  | JVal.str s => some s
  | JVal.num n => some (toString n)
  | _ => some ""

/-- The work count used by the scorer and the document builder:
`int(d.get("work_count") or 0)`. -/
def wcOf (d : JVal) : Int :=
  match pyOr (pyGetV d "work_count") (JVal.num 0) with
  | JVal.num n => n
  | _ => 0

/-- Embedding of `score_candidate` from main.py.  Note the Python
truthiness guards `if target_birth:` and `if by:`: a zero target year
and a zero extracted year both disable the proximity bonus. -/
def score_candidate (d : JVal) (target_name : String)
    (target_birth : Option Int) : Int :=
  let lname := pyLowerStrip target_name
  let exactBonus : Int :=
    if pyLowerStrip (asStr (pyOr (pyGetV d "name") (JVal.str ""))) = lname
    then 1000 else 0
  let wc := wcOf d
  let birthBonus : Int :=
    match target_birth with
    | none => 0
    | some tb =>
      if tb = 0 then 0
      else
        match to_year (birthDateStr d) with
        | some y => if y = 0 then 0 else 100 - |y - tb|
        | none => 0
  exactBonus + birthBonus + wc

/-- Stable descending insertion: a new element is placed in front of the
first existing element of strictly smaller key, after all elements of
greater-or-equal key. -/
def insertDesc (s : α → Int) (x : α) : List α → List α
  | [] => [x]
  | y :: ys => if s y ≤ s x then x :: y :: ys else y :: insertDesc s x ys

/-- Stable descending sort by an integer key, modelling Python
`sorted(l, key=s, reverse=True)` (Timsort is stable and `reverse=True`
preserves stability among equal keys). -/
def isortDesc (s : α → Int) : List α → List α
  | [] => []
  | x :: xs => insertDesc s x (isortDesc s xs)

/-- Embedding of `pick_best_author` from main.py: `None` on an empty
list, otherwise the head of the stable descending sort by
`score_candidate`. -/
def pick_best_author (docs : List JVal) (target_name : String)
    (target_birth : Option Int) : Option JVal :=
  if docs.isEmpty then none
  else
    (isortDesc (fun d => score_candidate d target_name target_birth)
      docs).head?

/-- First element attaining the maximum key, ties resolved in favour of
the earliest occurrence: the selection policy stated by the
specification for `pickBest`. -/
def firstArgmax (s : α → Int) : List α → Option α
  | [] => none
  | x :: xs =>
    match firstArgmax s xs with
    | none => some x
    | some y => if s x < s y then some y else some x

/-- Embedding of `extract_bio` from main.py: resolve
`detail.get("bio") or detail.get("description")` (Python `or`, hence a
falsy bio falls through), return a truthy string verbatim, the `value`
field of a dict when that field is a string, otherwise `None`. -/
def extract_bio (detail : JVal) : Option String :=
  let v := pyOr (pyGetV detail "bio") (pyGetV detail "description")
  if pyTruthy v = false then none
  else
    match v with
    | JVal.str s => some s
    | JVal.obj fs =>
      match pyGetV (JVal.obj fs) "value" with
      | JVal.str s => some s
      | _ => none
    | _ => none

/-- The scoring formula exactly as worded by claim C1: the birth
proximity bonus applies whenever the target birth year is provided and a
four-digit year is extractable, with no Python zero-truthiness guards.
This is the refinement-side definition compared against
`score_candidate`. -/
def scoreClaimed (d : JVal) (target_name : String)
    (target_birth : Option Int) : Int :=
  let lname := pyLowerStrip target_name
  let exactBonus : Int :=
    if pyLowerStrip (asStr (pyOr (pyGetV d "name") (JVal.str ""))) = lname
    then 1000 else 0
  let wc := wcOf d
  let birthBonus : Int :=
    match target_birth with
    | none => 0
    | some tb =>
      match to_year (birthDateStr d) with
      | some y => 100 - |y - tb|
      | none => 0
  exactBonus + birthBonus + wc

/-- Accumulator pass collecting maximal runs of consecutive digit
characters (the accumulator holds the current run, reversed). -/
def digitRunsGo : List Char → List Char → List (List Char)
  | [], acc => if acc.isEmpty then [] else [acc.reverse]
  | c :: rest, acc =>
    if c.isDigit then digitRunsGo rest (c :: acc)
    else if acc.isEmpty then digitRunsGo rest []
    else acc.reverse :: digitRunsGo rest []

/-- Maximal runs of consecutive digit characters, in order of
occurrence. -/
def digitRuns (l : List Char) : List (List Char) :=
  digitRunsGo l []

/-- Year extraction exactly as worded by claim C7: the first maximal run
of exactly four consecutive digits, null when no such run exists.  This
is the refinement-side definition compared against `to_year`. -/
def toYearClaimed (s : Option String) : Option Int :=
  match s with
  | none => none
  | some t => ((digitRuns t.toList).find? (fun r => r.length = 4)).map digitsVal

/-- Bio extraction exactly as worded by claim C8: `detail.bio` when the
key is present (else `detail.description`), a string returned verbatim,
the string-valued `value` field of a structured value, otherwise null.
This is the refinement-side definition compared against `extract_bio`. -/
def extractBioClaimed (detail : JVal) : Option String :=
  let v? :=
    match jMember detail "bio" with
    | some v => some v
    | none => jMember detail "description"
  match v? with
  | none => none
  | some (JVal.str s) => some s
  | some v =>
    match jMember v "value" with
    | some (JVal.str s) => some s
    | _ => none

/-- Failure classes of an outbound HTTP attempt, as distinguished by the
specification's retry policy. -/
inductive PyErr where
  | network : PyErr
  | serverStatus (code : Nat) : PyErr
  | clientStatus (code : Nat) : PyErr
  | malformed : PyErr
  | otherErr (msg : String) : PyErr
deriving DecidableEq

/-- Transient failures in the sense of the specification: network errors
and server error statuses. -/
def transientErr : PyErr → Bool
  | PyErr.network => true
  | PyErr.serverStatus _ => true
  | _ => false

/-- The wait produced by tenacity's `wait_exponential(multiplier=0.5,
max=4)` after the k-th failed attempt: `min 4 (0.5 * 2 ^ k)` seconds
(tenacity computes `multiplier * exp_base ^ attempt_number`). -/
def backoffWait (k : Nat) : ℚ :=
  min 4 ((1 / 2) * 2 ^ k)

/-- The retry loop installed by
`@retry(stop=stop_after_attempt(3), wait=wait_exponential(multiplier=0.5, max=4))`:
the n-th attempt outcome is `attempt n`; any exception is retried until
3 attempts have been made, accumulating the backoff waits; the value is
the first success, or the last attempt's error once attempts are
exhausted (tenacity then raises, wrapping that error). -/
def tenacityGo (attempt : Nat → Except PyErr JVal) :
    Nat → Nat → List ℚ → Except PyErr JVal × List ℚ
  | n, remaining, waits =>
    match attempt n, remaining with
    | Except.ok v, _ => (Except.ok v, waits)
    | Except.error e, 0 => (Except.error e, waits)
    | Except.error _, r + 1 =>
      tenacityGo attempt (n + 1) r (waits ++ [backoffWait n])

/-- Embedding of `ol_search_author`: the decorated search call, as a
function of the per-attempt HTTP outcomes (first attempt is attempt 1,
at most two retries remain). -/
def ol_search_author (attempt : Nat → Except PyErr JVal) :
    Except PyErr JVal × List ℚ :=
  tenacityGo attempt 1 2 []

/-- Embedding of `ol_get_author`: the decorated fetch-by-id call, as a
function of the per-attempt HTTP outcomes. -/
def ol_get_author (attempt : Nat → Except PyErr JVal) :
    Except PyErr JVal × List ℚ :=
  tenacityGo attempt 1 2 []

/-- The retry policy exactly as worded by claim C4: retry only on
transient failure (up to 3 attempts, backoff starting at 0.5s capped at
4s, the k-th wait being `min 4 (0.5 * 2 ^ (k - 1))`); non-transient
failures surface immediately without retry.  This is the
refinement-side definition compared against the tenacity loop. -/
def claimedRetry (attempt : Nat → Except PyErr JVal) :
    Nat → Nat → List ℚ → Except PyErr JVal × List ℚ
  | n, remaining, waits =>
    match attempt n, remaining with
    | Except.ok v, _ => (Except.ok v, waits)
    | Except.error e, 0 => (Except.error e, waits)
    | Except.error e, r + 1 =>
      if transientErr e = false then (Except.error e, waits)
      else
        claimedRetry attempt (n + 1) r
          (waits ++ [min 4 ((1 / 2) * 2 ^ (n - 1))])

/-- The enriched author document built by `enrich_one` (the nested
`source` object is inlined as the `source_`-prefixed fields). -/
structure EDoc where
  author_id : String
  name : String
  birth : Option Int
  variants : List JVal
  top_subjects : List JVal
  bio_text : String
  source_id : String
  source_url : String
  match_confidence : Int
  last_fetched : String

/-- Observable outcome of one `enrich_one` run: its returned value (or
propagated exception), the authority detail ids fetched, and the
documents passed to the store upsert, in call order. -/
structure EnrichOut where
  result : Except String JVal
  fetches : List String
  upserts : List (String × EDoc)

/-- Oracles for the collaborators of `enrich_one`: the outcome of the
authority name search for the query, the outcome of each detail fetch,
the outcome of each store upsert, and the current timestamp. -/
structure OLEnv where
  search : Except String JVal
  fetch : String → Except String JVal
  upsert : String → EDoc → Except String Unit
  now : String

/-- Python `(to_year ...) or birth_year` on optional integers: an
extracted year of 0 is falsy and falls back, as does `None`. -/
def optIntOr (a b : Option Int) : Option Int :=
  match a with
  | some v => if v = 0 then b else some v
  | none => b

/-- The candidate list taken from the search payload:
`data.get("docs", [])`.  A present null yields `None` in Python, which
`pick_best_author` treats exactly like the empty list. -/
def docsOf (data : JVal) : List JVal :=
  match jMember data "docs" with
  | some v => asArr v
  | none => []

/-- Python `s.split(sep)` for a one-character separator, over character
lists; the result is always non-empty (`"".split("/") == [""]`). -/
def splitOnChar (sep : Char) : List Char → List (List Char)
  | [] => [[]]
  | c :: rest =>
    if c = sep then [] :: splitOnChar sep rest
    else
      match splitOnChar sep rest with
      | [] => [[c]]
      | r :: rs => (c :: r) :: rs

/-- Derivation of the authority id from the chosen candidate:
`(best.get("key") or "").split("/")[-1]`. -/
def olidOf (best : JVal) : String :=
  String.mk
    (((splitOnChar '/'
      (asStr (pyOr (pyGetV best "key") (JVal.str ""))).toList).getLast?).getD [])

/-- The `no_match` status object returned by `enrich_one`. -/
def noMatchObj (name : String) : JVal :=
  JVal.obj [("status", JVal.str "no_match"), ("name", JVal.str name)]

/-- The `ok` status object returned by `enrich_one`. -/
def okObj (olid : String) (docName : String) (subjects : List JVal) : JVal :=
  JVal.obj [("status", JVal.str "ok"), ("olid", JVal.str olid),
    ("name", JVal.str docName), ("subjects", JVal.arr (subjects.take 8))]

/-- The document `enrich_one` builds for a chosen candidate and its
fetched detail: bio from `extract_bio` with the synthesized
`"<name>. Author."` fallback on a falsy result, birth year from the
candidate's birth date falling back to the query's (Python `or`, so an
extracted year 0 also falls back), confidence from the work count, and
the timestamp from the environment. -/
def mkDoc (env : OLEnv) (name : String) (birth_year : Option Int)
    (best detail : JVal) : EDoc :=
  { author_id := olidOf best
    name := asStr (pyOr (pyGetV best "name") (JVal.str name))
    birth := optIntOr (to_year (birthDateStr best)) birth_year
    variants := asArr (pyOr (pyGetV best "alternate_names") (JVal.arr []))
    top_subjects := asArr (pyOr (pyGetV best "top_subjects") (JVal.arr []))
    bio_text :=
      match extract_bio detail with
      | some s => if s = "" then name ++ ". Author." else s
      | none => name ++ ". Author."
    source_id := olidOf best
    source_url := "https://openlibrary.org/authors/" ++ olidOf best
    match_confidence := wcOf best
    last_fetched := env.now }

/-- Embedding of `enrich_one` from main.py: search the authority, pick
the best candidate (`if not best` uses Python truthiness, so an empty
candidate record also yields `no_match`), derive the id, fetch the
detail, build the document (`mkDoc`) and upsert it. -/
def enrich_one (env : OLEnv) (name : String) (birth_year : Option Int) :
    EnrichOut :=
  match env.search with
  | Except.error e => ⟨Except.error e, [], []⟩
  | Except.ok data =>
    let docs := docsOf data
    match pick_best_author docs name birth_year with
    | none => ⟨Except.ok (noMatchObj name), [], []⟩
    | some best =>
      if pyTruthy best = false then ⟨Except.ok (noMatchObj name), [], []⟩
      else
        let olid := olidOf best
        match env.fetch olid with
        | Except.error e => ⟨Except.error e, [olid], []⟩
        | Except.ok detail =>
          let doc := mkDoc env name birth_year best detail
          match env.upsert olid doc with
          | Except.error e => ⟨Except.error e, [olid], [(olid, doc)]⟩
          | Except.ok _ =>
            ⟨Except.ok (okObj olid doc.name doc.top_subjects), [olid],
              [(olid, doc)]⟩

/-- Result of one `enrich_batch` call: the processed count, the
resumption cursor (`next_after_key`), the recorded per-item failures,
and whether the loop terminated because the aggregation was exhausted
(empty page or missing `after_key`) rather than because the limit was
reached. -/
structure BatchOut where
  processed : Nat
  next : Option Nat
  errors : List (Nat × String)
  exhausted : Bool
deriving DecidableEq

/-- The distinct-author keys of the works aggregation situated after a
cursor.  The composite keys `(creator_name, creator_birth)` are linearly
ordered (ascending composite order) and are modelled as naturals; a page
request with an `after` cursor returns the keys strictly greater than
it, in order. -/
def remAfter (keys : List Nat) : Option Nat → List Nat
  | none => keys
  | some a => keys.filter (fun k => a < k)

/-- The inner `for b in buckets` loop of `enrich_batch`: each item is
resolved through the oracle `f` inside `try/except` (a failure is
recorded and processing continues), `processed` is incremented
regardless of the outcome, and the loop stops early once `processed`
reaches the limit. -/
def pageLoop (f : Nat → Except String Unit) (limit : Nat) :
    List Nat → Nat → List (Nat × String) → Nat × List (Nat × String)
  | [], p, e => (p, e)
  | b :: bs, p, e =>
    if limit ≤ p then (p, e)
    else
      match f b with
      | Except.ok _ => pageLoop f limit bs (p + 1) e
      | Except.error msg => pageLoop f limit bs (p + 1) (e ++ [(b, msg)])

/-- The `while processed < limit` loop of `enrich_batch`: request a page
of at most `min 1000 (limit - processed)` buckets after the current
cursor; an empty page terminates with a null cursor; otherwise the page
is processed, the cursor advances to the reported `after_key` (the last
bucket's key), and a missing `after_key` terminates.  The fuel argument
bounds the iteration count; `limit` units always suffice because every
non-final iteration processes at least one bucket. -/
def batchGo (f : Nat → Except String Unit) (keys : List Nat) (limit : Nat) :
    Nat → Nat → Option Nat → List (Nat × String) → BatchOut
  | 0, p, a, e => ⟨p, a, e, false⟩
  | fuel + 1, p, a, e =>
    if p < limit then
      match (remAfter keys a).take (min 1000 (limit - p)) with
      | [] => ⟨p, none, e, true⟩
      | b :: bs =>
        match pageLoop f limit (b :: bs) p e, (b :: bs).getLast? with
        | (p2, e2), none => ⟨p2, none, e2, true⟩
        | (p2, e2), some lastb => batchGo f keys limit fuel p2 (some lastb) e2
    else ⟨p, a, e, false⟩

/-- Embedding of `enrich_batch` from main.py, as a function of the
per-item resolution oracle `f`, the aggregation's key list, the limit
and the starting cursor. -/
def enrich_batch (f : Nat → Except String Unit) (keys : List Nat)
    (limit : Nat) (start : Option Nat) : BatchOut :=
  batchGo f keys limit limit 0 start []

/-- The all-successful per-item oracle. -/
def allOk : Nat → Except String Unit := fun _ => Except.ok ()

/-- The characters at positions `i..i+3` form a window of four digit
characters (positional reformulation of a `4-digit` regex match at
position `i`). -/
def fourDigitWindowAt (l : List Char) (i : Nat) : Bool :=
  match (l.drop i).take 4 with
  | [a, b, c, d] => a.isDigit && b.isDigit && c.isDigit && d.isDigit
  | _ => false

/-- Integer value of the four characters at positions `i..i+3`. -/
def windowValAt (l : List Char) (i : Nat) : Int :=
  digitsVal ((l.drop i).take 4)

/-- Candidate with a birth date whose extractable 4-digit year is 0
(`"0000"`), used to separate the code's scoring from claim C1's. -/
def candZeroYear : JVal :=
  JVal.obj [("name", JVal.str "alice"), ("birth_date", JVal.str "0000"),
    ("work_count", JVal.num 50)]

/-- Candidate with no birth date and a smaller work count. -/
def candNoYear : JVal :=
  JVal.obj [("name", JVal.str "bob"), ("work_count", JVal.num 10)]

/-- Attempt oracle whose first attempt fails with a malformed response
and whose later attempts succeed. -/
def attemptMalformedOnce : Nat → Except PyErr JVal :=
  fun n => if n = 1 then Except.error PyErr.malformed else Except.ok (JVal.num 42)

/-- Environment whose author search succeeds with an empty candidate
list. -/
def envEmptySearch : OLEnv :=
  { search := Except.ok (JVal.obj [("docs", JVal.arr [])])
    fetch := fun _ => Except.ok (JVal.obj [])
    upsert := fun _ _ => Except.ok ()
    now := "t" }

/-- Fully successful environment with a single well-formed candidate. -/
def candAlice : JVal :=
  JVal.obj [("name", JVal.str "Alice"), ("key", JVal.str "/authors/OL1A"),
    ("work_count", JVal.num 7)]

/-- Environment delivering `candAlice` and a plain string bio. -/
def envAlice : OLEnv :=
  { search := Except.ok (JVal.obj [("docs", JVal.arr [candAlice])])
    fetch := fun _ => Except.ok (JVal.obj [("bio", JVal.str "Bio of Alice")])
    upsert := fun _ _ => Except.ok ()
    now := "t" }

/-- The document `enrich_one` builds for `envAlice`. -/
def docAlice : EDoc :=
  { author_id := "OL1A", name := "Alice", birth := none, variants := []
    top_subjects := [], bio_text := "Bio of Alice", source_id := "OL1A"
    source_url := "https://openlibrary.org/authors/OL1A"
    match_confidence := 7, last_fetched := "t" }

/-- Candidate that is a non-empty record with no `key` field. -/
def candNoKey : JVal :=
  JVal.obj [("name", JVal.str "X"), ("work_count", JVal.num 3)]

/-- Environment delivering `candNoKey`; the detail fetch and the upsert
succeed for every id. -/
def envNoKey : OLEnv :=
  { search := Except.ok (JVal.obj [("docs", JVal.arr [candNoKey])])
    fetch := fun _ => Except.ok (JVal.obj [])
    upsert := fun _ _ => Except.ok ()
    now := "t" }

/-- Environment whose search returns a single entirely empty candidate
record (the Python-falsy dict). -/
def envEmptyCand : OLEnv :=
  { search := Except.ok (JVal.obj [("docs", JVal.arr [JVal.obj []])])
    fetch := fun _ => Except.ok (JVal.obj [])
    upsert := fun _ _ => Except.ok ()
    now := "t" }

/-- Per-item oracle failing exactly on key 6. -/
def failOn6 : Nat → Except String Unit :=
  fun k => if k = 6 then Except.error "boom" else Except.ok ()

theorem window_short (l : List Char) (i : Nat) (h : l.length < 4) :
    fourDigitWindowAt l i = false := by
  have hlen : ((l.drop i).take 4).length < 4 := by
    rw [List.length_take, List.length_drop]
    have h2 := Nat.min_le_right 4 (l.length - i)
    omega
  rcases h4 : (l.drop i).take 4 with _ | ⟨a, _ | ⟨b, _ | ⟨c, _ | ⟨d, r⟩⟩⟩⟩
  · simp [fourDigitWindowAt, h4]
  · simp [fourDigitWindowAt, h4]
  · simp [fourDigitWindowAt, h4]
  · simp [fourDigitWindowAt, h4]
  · rw [h4] at hlen
    simp at hlen
    omega

theorem find_window_short (l : List Char) (h : l.length < 4) :
    ((List.range l.length).find? (fourDigitWindowAt l)).map (windowValAt l)
      = none := by
  have hnone : (List.range l.length).find? (fourDigitWindowAt l) = none :=
    List.find?_eq_none.mpr (fun i _ => by simp [window_short l i h])
  rw [hnone]
  rfl

theorem scan4_eq_find (l : List Char) :
    scan4 l
      = ((List.range l.length).find? (fourDigitWindowAt l)).map (windowValAt l) := by
  induction l with
  | nil => rfl
  | cons c1 tl ih =>
    rcases tl with _ | ⟨c2, _ | ⟨c3, _ | ⟨c4, rest⟩⟩⟩
    · rw [find_window_short _ (by simp)]
      rfl
    · rw [find_window_short _ (by simp)]
      rfl
    · rw [find_window_short _ (by simp)]
      rfl
    · by_cases hc : (c1.isDigit && c2.isDigit && c3.isDigit && c4.isDigit) = true
      · have hpos : fourDigitWindowAt (c1 :: c2 :: c3 :: c4 :: rest) 0 = true := hc
        rw [show (c1 :: c2 :: c3 :: c4 :: rest).length
            = (c2 :: c3 :: c4 :: rest).length + 1 from rfl,
          List.range_succ_eq_map, List.find?_cons_of_pos _ hpos]
        simp only [scan4]
        rw [if_pos hc]
        rfl
      · have hneg : ¬ fourDigitWindowAt (c1 :: c2 :: c3 :: c4 :: rest) 0 = true := hc
        rw [show (c1 :: c2 :: c3 :: c4 :: rest).length
            = (c2 :: c3 :: c4 :: rest).length + 1 from rfl,
          List.range_succ_eq_map, List.find?_cons_of_neg _ hneg, List.find?_map,
          Option.map_map]
        have hshift : fourDigitWindowAt (c1 :: c2 :: c3 :: c4 :: rest) ∘ Nat.succ
            = fourDigitWindowAt (c2 :: c3 :: c4 :: rest) := funext fun i => rfl
        have hval : windowValAt (c1 :: c2 :: c3 :: c4 :: rest) ∘ Nat.succ
            = windowValAt (c2 :: c3 :: c4 :: rest) := funext fun i => rfl
        rw [hshift, hval]
        simp only [scan4]
        rw [if_neg hc]
        exact ih

/-- C7 (amended): year extraction returns the integer value of the first
four consecutive digits of the string (the leftmost regex match of four
digit characters, i.e. the first four digits of the first maximal digit
run of length at least 4), and null when the input is null or contains
no four consecutive digits; in particular "c. 1923" yields 1923 and
"unknown", "" and null each yield null. -/
theorem to_year_amended_spec :
    (∀ s : String, to_year (some s)
      = ((List.range s.toList.length).find? (fourDigitWindowAt s.toList)).map
          (windowValAt s.toList))
    ∧ to_year none = none
    ∧ to_year (some "c. 1923") = some 1923
    ∧ to_year (some "unknown") = none
    ∧ to_year (some "") = none := by
  refine ⟨fun s => ?_, rfl, by decide, by decide, by decide⟩
  by_cases hs : s = ""
  · subst hs
    rfl
  · simp only [to_year]
    rw [if_neg hs]
    exact scan4_eq_find s.toList

/-- C7 (counterexample): on "12345" the code extracts 1234 (the first
four digits of a five-digit run), whereas the claim's "first run of
exactly 4 consecutive digits" yields null because the only run has
length 5. -/
theorem to_year_exact_run_counterexample :
    to_year (some "12345") = some 1234
    ∧ toYearClaimed (some "12345") = none := by
  constructor
  · decide
  · decide

/-- C8 (counterexample): on a detail record whose `bio` key is present
but bound to the empty string and whose `description` is "hi", the code
returns "hi" (Python `or` skips the falsy bio), whereas the claim's
presence-based precedence resolves `bio` and returns the empty string
verbatim. -/
theorem extract_bio_presence_counterexample :
    extract_bio (JVal.obj [("bio", JVal.str ""), ("description", JVal.str "hi")])
      = some "hi"
    ∧ extractBioClaimed
        (JVal.obj [("bio", JVal.str ""), ("description", JVal.str "hi")])
      = some "" :=
  ⟨rfl, rfl⟩

/-- C8 (amended): `extract_bio` resolves `detail.bio` when it is truthy
and otherwise `detail.description` (Python `or`); a falsy resolved value
yields null; a truthy string is returned verbatim; a non-empty
structured value with a string-valued `value` field yields that field
(even when it is empty); any other truthy value yields null.  The
claim's stated examples hold. -/
theorem extract_bio_amended_spec :
    (∀ detail : JVal,
      (pyTruthy (pyOr (pyGetV detail "bio") (pyGetV detail "description")) = false →
        extract_bio detail = none)
      ∧ (∀ s, pyOr (pyGetV detail "bio") (pyGetV detail "description") = JVal.str s →
          s ≠ "" → extract_bio detail = some s)
      ∧ (∀ fs s,
          pyOr (pyGetV detail "bio") (pyGetV detail "description") = JVal.obj fs →
          fs ≠ [] → pyGetV (JVal.obj fs) "value" = JVal.str s →
          extract_bio detail = some s)
      ∧ (∀ v, pyOr (pyGetV detail "bio") (pyGetV detail "description") = v →
          pyTruthy v = true → (∀ s, v ≠ JVal.str s) →
          (∀ s, pyGetV v "value" ≠ JVal.str s) →
          extract_bio detail = none))
    ∧ extract_bio (JVal.obj [("bio", JVal.str "hello")]) = some "hello"
    ∧ extract_bio (JVal.obj [("description", JVal.obj [("value", JVal.str "hi")])])
        = some "hi"
    ∧ extract_bio (JVal.obj []) = none := by
  refine ⟨fun detail => ⟨?_, ?_, ?_, ?_⟩, rfl, rfl, rfl⟩
  · intro h
    simp [extract_bio, h]
  · intro s h hs
    simp [extract_bio, h, pyTruthy, hs]
  · intro fs s h hfs hv
    rcases fs with _ | ⟨p, fs2⟩
    · exact absurd rfl hfs
    · simp [extract_bio, h, pyTruthy] at hv ⊢
      simp [hv]
  · intro v hv htr hnstr hnval
    cases v with
    | null => simp [pyTruthy] at htr
    | str s => exact absurd rfl (hnstr s)
    | num n => simp [extract_bio, hv, htr]
    | bool b => simp [extract_bio, hv, htr]
    | arr l => simp [extract_bio, hv, htr]
    | obj fs =>
      cases h2 : pyGetV (JVal.obj fs) "value" with
      | str s => exact absurd h2 (hnval s)
      | null => simp [extract_bio, hv, htr, h2]
      | num n => simp [extract_bio, hv, htr, h2]
      | bool b => simp [extract_bio, hv, htr, h2]
      | arr l => simp [extract_bio, hv, htr, h2]
      | obj fs2 => simp [extract_bio, hv, htr, h2]

/-- C8 (witness): the amended precedence applied at a record whose bio
is absent and whose description is the string "hello". -/
theorem extract_bio_amended_spec_witness :
    extract_bio (JVal.obj [("description", JVal.str "hello")]) = some "hello" :=
  (extract_bio_amended_spec.1 (JVal.obj [("description", JVal.str "hello")])).2.1
    "hello" rfl (by decide)

/-- C10: `extract_bio` falls through from `bio` to `description`
whenever `bio` is falsy, not only when it is absent; and a falsy
resolved value is reported as null rather than returned verbatim.  In
particular a record with an empty-string bio (or an empty structured
bio) and a string description yields the description. -/
theorem extract_bio_falsy_fallthrough :
    (∀ (detail : JVal) (s : String), pyTruthy (pyGetV detail "bio") = false →
      pyGetV detail "description" = JVal.str s → s ≠ "" →
      extract_bio detail = some s)
    ∧ (∀ detail : JVal,
        pyTruthy (pyOr (pyGetV detail "bio") (pyGetV detail "description")) = false →
        extract_bio detail = none)
    ∧ extract_bio (JVal.obj [("bio", JVal.str ""), ("description", JVal.str "hi")])
        = some "hi"
    ∧ extract_bio
        (JVal.obj [("bio", JVal.obj []), ("description", JVal.str "desc")])
        = some "desc"
    ∧ extract_bio (JVal.obj [("bio", JVal.str "")]) = none := by
  refine ⟨?_, ?_, rfl, rfl, rfl⟩
  · intro detail s h1 h2 hs
    have hor : pyOr (pyGetV detail "bio") (pyGetV detail "description")
        = JVal.str s := by
      simp [pyOr, h1, h2]
    simp [extract_bio, hor, pyTruthy, hs]
  · intro detail h
    simp [extract_bio, h]

/-- C10 (witness): the fall-through applied at a record with an
empty-string bio and description "hi". -/
theorem extract_bio_falsy_fallthrough_witness :
    extract_bio (JVal.obj [("bio", JVal.str ""), ("description", JVal.str "hi")])
      = some "hi" :=
  extract_bio_falsy_fallthrough.1
    (JVal.obj [("bio", JVal.str ""), ("description", JVal.str "hi")]) "hi"
    rfl rfl (by decide)

theorem tenacityGo_three (f : Nat → Except PyErr JVal) :
    tenacityGo f 1 2 [] =
      match f 1 with
      | Except.ok v => (Except.ok v, [])
      | Except.error _ =>
        match f 2 with
        | Except.ok v => (Except.ok v, [backoffWait 1])
        | Except.error _ => (f 3, [backoffWait 1, backoffWait 2]) := by
  cases h1 : f 1 with
  | ok v => simp [tenacityGo, h1]
  | error e1 =>
    cases h2 : f 2 with
    | ok v => simp [tenacityGo, h1, h2]
    | error e2 =>
      cases h3 : f 3 with
      | ok v => simp [tenacityGo, h1, h2, h3]
      | error e3 => simp [tenacityGo, h1, h2, h3]

/-- C4 (amended): both decorated authority operations retry on any
exception, transient or not, up to 3 attempts in total, returning the
first success or, after three failures, the last error (which tenacity
raises wrapped in its RetryError); the wait after the k-th failed
attempt is tenacity's `min 4 (0.5 * 2 ^ k)` seconds, so the waits are
1s and then 2s, and the 4-second cap holds for every attempt index. -/
theorem ol_retry_amended_spec :
    (∀ f, ol_search_author f =
      match f 1 with
      | Except.ok v => (Except.ok v, [])
      | Except.error _ =>
        match f 2 with
        | Except.ok v => (Except.ok v, [backoffWait 1])
        | Except.error _ => (f 3, [backoffWait 1, backoffWait 2]))
    ∧ (∀ f, ol_get_author f =
      match f 1 with
      | Except.ok v => (Except.ok v, [])
      | Except.error _ =>
        match f 2 with
        | Except.ok v => (Except.ok v, [backoffWait 1])
        | Except.error _ => (f 3, [backoffWait 1, backoffWait 2]))
    ∧ backoffWait 1 = 1 ∧ backoffWait 2 = 2 ∧ ∀ k, backoffWait k ≤ 4 := by
  refine ⟨fun f => tenacityGo_three f, fun f => tenacityGo_three f, ?_, ?_,
    fun k => min_le_left _ _⟩
  · norm_num [backoffWait]
  · norm_num [backoffWait]

/-- C4 (counterexample): a malformed response (non-transient) on the
first attempt does not surface: the decorated search retries after a
1-second wait and returns the second attempt's success, whereas the
claimed policy surfaces the malformed error immediately with no
retry. -/
theorem ol_retry_nontransient_counterexample :
    transientErr PyErr.malformed = false
    ∧ ol_search_author attemptMalformedOnce
        = (Except.ok (JVal.num 42), [backoffWait 1])
    ∧ claimedRetry attemptMalformedOnce 1 2 []
        = (Except.error PyErr.malformed, []) :=
  ⟨rfl, rfl, rfl⟩

theorem head?_isortDesc (s : α → Int) (l : List α) :
    (isortDesc s l).head? = firstArgmax s l := by
  induction l with
  | nil => rfl
  | cons x xs ih =>
    simp only [isortDesc, firstArgmax]
    cases hfa : firstArgmax s xs with
    | none =>
      rw [hfa] at ih
      have hnil : isortDesc s xs = [] := by
        cases hs : isortDesc s xs
        · rfl
        · rw [hs] at ih
          simp at ih
      rw [hnil]
      rfl
    | some y =>
      rw [hfa] at ih
      cases hs : isortDesc s xs with
      | nil =>
        rw [hs] at ih
        simp at ih
      | cons z zs =>
        rw [hs] at ih
        simp only [List.head?] at ih
        have hzy : z = y := by injection ih
        rw [hzy]
        show (insertDesc s x (y :: zs)).head?
          = if s x < s y then some y else some x
        simp only [insertDesc]
        by_cases h : s y ≤ s x
        · rw [if_pos h, if_neg (not_lt.mpr h)]
          rfl
        · rw [if_neg h, if_pos (not_le.mp h)]
          rfl

theorem firstArgmax_of_ne_nil (s : α → Int) :
    ∀ l : List α, l ≠ [] → ∃ c, firstArgmax s l = some c := by
  intro l h
  cases l with
  | nil => exact absurd rfl h
  | cons x xs =>
    cases h2 : firstArgmax s xs with
    | none => exact ⟨x, by simp [firstArgmax, h2]⟩
    | some y =>
      by_cases hl : s x < s y
      · exact ⟨y, by simp [firstArgmax, h2, hl]⟩
      · exact ⟨x, by simp [firstArgmax, h2, hl]⟩

theorem firstArgmax_mem_max {s : α → Int} :
    ∀ {l : List α} {c : α}, firstArgmax s l = some c →
      c ∈ l ∧ (∀ d ∈ l, s d ≤ s c)
        ∧ ∃ pre suf, l = pre ++ c :: suf ∧ ∀ d ∈ pre, s d < s c := by
  intro l
  induction l with
  | nil =>
    intro c h
    simp [firstArgmax] at h
  | cons x xs ih =>
    intro c h
    simp only [firstArgmax] at h
    cases hfa : firstArgmax s xs with
    | none =>
      rw [hfa] at h
      have h2 : some x = some c := h
      obtain rfl : x = c := by injection h2
      have hxs : xs = [] := by
        cases xs with
        | nil => rfl
        | cons a as =>
          simp only [firstArgmax] at hfa
          split at hfa
          · cases hfa
          · split at hfa
            · cases hfa
            · cases hfa
      subst hxs
      refine ⟨List.mem_singleton_self _, ?_, [], [], rfl, by simp⟩
      intro d hd
      simp at hd
      rw [hd]
    | some y =>
      rw [hfa] at h
      have h2 : (if s x < s y then some y else some x) = some c := h
      obtain ⟨hy_mem, hy_max, pre, suf, hdecomp, hpre⟩ := ih hfa
      by_cases hlt : s x < s y
      · rw [if_pos hlt] at h2
        obtain rfl : y = c := by injection h2
        refine ⟨List.mem_cons_of_mem _ hy_mem, ?_, x :: pre, suf,
          by rw [hdecomp, List.cons_append], ?_⟩
        · intro d hd
          rcases List.mem_cons.mp hd with rfl | hd2
          · exact le_of_lt hlt
          · exact hy_max d hd2
        · intro d hd
          rcases List.mem_cons.mp hd with rfl | hd2
          · exact hlt
          · exact hpre d hd2
      · rw [if_neg hlt] at h2
        obtain rfl : x = c := by injection h2
        refine ⟨List.mem_cons_self _ _, ?_, [], xs, rfl, by simp⟩
        intro d hd
        rcases List.mem_cons.mp hd with rfl | hd2
        · exact le_refl _
        · exact le_trans (hy_max d hd2) (not_lt.mp hlt)

theorem pick_best_eq_firstArgmax (docs : List JVal) (n : String)
    (b : Option Int) :
    pick_best_author docs n b
      = firstArgmax (fun d => score_candidate d n b) docs := by
  cases docs with
  | nil => rfl
  | cons x xs =>
    simp only [pick_best_author, List.isEmpty_cons, Bool.false_eq_true,
      if_false]
    exact head?_isortDesc _ _

/-- C1 (amended): for a non-empty candidate list `pick_best_author`
returns the first candidate maximizing `score_candidate` (exact-name
bonus 1000, birth proximity bonus `100 - distance` applied only when the
provided target birth year is non-zero and the extracted candidate year
is non-zero — the Python truthiness guards — plus the work count, 0 when
absent); ties are broken by first-encountered order; the empty list
yields null. -/
theorem pick_best_author_amended_spec :
    (∀ n b, pick_best_author [] n b = none)
    ∧ (∀ docs n b, docs ≠ [] → ∃ c, pick_best_author docs n b = some c)
    ∧ (∀ docs n b c, pick_best_author docs n b = some c →
        c ∈ docs
          ∧ (∀ d ∈ docs, score_candidate d n b ≤ score_candidate c n b)
          ∧ ∃ pre suf, docs = pre ++ c :: suf
              ∧ ∀ d ∈ pre, score_candidate d n b < score_candidate c n b) := by
  refine ⟨fun n b => rfl, ?_, ?_⟩
  · intro docs n b h
    obtain ⟨c, hc⟩ := firstArgmax_of_ne_nil (fun d => score_candidate d n b) docs h
    refine ⟨c, ?_⟩
    rw [pick_best_eq_firstArgmax]
    exact hc
  · intro docs n b c h
    rw [pick_best_eq_firstArgmax] at h
    exact firstArgmax_mem_max h

/-- C1 (witness): the amended selection property instantiated at a
concrete two-candidate list with target name "q" and target birth year
2000. -/
theorem pick_best_author_amended_spec_witness :
    candZeroYear ∈ [candZeroYear, candNoYear]
    ∧ (∀ d ∈ [candZeroYear, candNoYear],
        score_candidate d "q" (some 2000)
          ≤ score_candidate candZeroYear "q" (some 2000))
    ∧ ∃ pre suf, [candZeroYear, candNoYear] = pre ++ candZeroYear :: suf
        ∧ ∀ d ∈ pre, score_candidate d "q" (some 2000)
            < score_candidate candZeroYear "q" (some 2000) :=
  pick_best_author_amended_spec.2.2 [candZeroYear, candNoYear] "q" (some 2000)
    candZeroYear rfl

/-- C1 (counterexample): with target birth year 2000, the candidate
whose birth date "0000" extracts the year 0 receives no birth proximity
bonus from the code (`if by:` is false at 0), so the code picks it on
work count alone, while the claimed score `100 - |0 - 2000|` would rank
it below the other candidate: the code's pick differs from the first
maximizer of the claimed score. -/
theorem pick_best_claimed_score_counterexample :
    pick_best_author [candZeroYear, candNoYear] "q" (some 2000)
      = some candZeroYear
    ∧ firstArgmax (fun d => scoreClaimed d "q" (some 2000))
        [candZeroYear, candNoYear] = some candNoYear
    ∧ score_candidate candZeroYear "q" (some 2000) = 50
    ∧ score_candidate candNoYear "q" (some 2000) = 10
    ∧ scoreClaimed candZeroYear "q" (some 2000) = -1850
    ∧ scoreClaimed candNoYear "q" (some 2000) = 10
    ∧ wcOf candZeroYear = 50 ∧ wcOf candNoYear = 10 :=
  ⟨rfl, rfl, by decide, by decide, by decide, by decide, by decide, by decide⟩

theorem append_author_ne_empty (s : String) : s ++ ". Author." ≠ "" := by
  intro h
  have h2 : (s ++ ". Author.").length = 0 := by
    rw [h]
    rfl
  rw [String.length_append] at h2
  have h3 : (". Author." : String).length = 9 := rfl
  omega

/-- C5: when the authority name search succeeds but the candidate
scorer yields no best candidate (in particular when the result sequence
is empty), `enrich_one` returns the `no_match` status carrying the input
name, raises no error, fetches no detail, and performs no upsert. -/
theorem enrich_one_no_match_spec :
    (∀ (env : OLEnv) (name : String) (birth : Option Int) (data : JVal),
      env.search = Except.ok data →
      pick_best_author (docsOf data) name birth = none →
      enrich_one env name birth = ⟨Except.ok (noMatchObj name), [], []⟩)
    ∧ (∀ (name : String) (birth : Option Int),
        pick_best_author [] name birth = none) := by
  refine ⟨?_, fun name birth => rfl⟩
  intro env name birth data hs hp
  simp [enrich_one, hs, hp]

/-- C5 (witness): the no-match path at an environment whose search
returns an empty candidate sequence. -/
theorem enrich_one_no_match_spec_witness :
    enrich_one envEmptySearch "x" none
      = ⟨Except.ok (noMatchObj "x"), [], []⟩ :=
  enrich_one_no_match_spec.1 envEmptySearch "x" none
    (JVal.obj [("docs", JVal.arr [])]) rfl rfl

/-- C6: every document `enrich_one` passes to the store upsert carries a
non-empty `bio_text` (the synthesized fallback combines the query name
with the generic descriptor ". Author." whenever the extractor yields
nothing usable) and a `match_confidence` equal to `wcOf` of the chosen
best candidate — the candidate's declared work count, or 0 when absent,
a deterministic function of the candidate. -/
theorem enrich_one_written_doc_invariant :
    ∀ (env : OLEnv) (name : String) (birth : Option Int) (olid : String)
      (d : EDoc),
      (olid, d) ∈ (enrich_one env name birth).upserts →
      d.bio_text ≠ ""
        ∧ ∃ data best, env.search = Except.ok data
            ∧ pick_best_author (docsOf data) name birth = some best
            ∧ d.match_confidence = wcOf best := by
  intro env name birth olid d hmem
  rcases hs : env.search with e | data
  · simp [enrich_one, hs] at hmem
  · rcases hp : pick_best_author (docsOf data) name birth with _ | best
    · simp [enrich_one, hs, hp] at hmem
    · by_cases ht : pyTruthy best = false
      · simp [enrich_one, hs, hp, ht] at hmem
      · rcases hf : env.fetch (olidOf best) with e | detail
        · simp [enrich_one, hs, hp, ht, hf] at hmem
        · have hup : (enrich_one env name birth).upserts
              = [(olidOf best, mkDoc env name birth best detail)] := by
            rcases hu : env.upsert (olidOf best) (mkDoc env name birth best detail)
              with e | u
            · simp [enrich_one, hs, hp, ht, hf, hu]
            · simp [enrich_one, hs, hp, ht, hf, hu]
          rw [hup] at hmem
          have hpair := List.mem_singleton.mp hmem
          have hd : d = mkDoc env name birth best detail :=
            congrArg Prod.snd hpair
          refine ⟨?_, data, best, rfl, hp, ?_⟩
          · rw [hd]
            simp only [mkDoc]
            rcases hb : extract_bio detail with _ | s
            · exact append_author_ne_empty name
            · show (if s = "" then name ++ ". Author." else s) ≠ ""
              by_cases hse : s = ""
              · rw [if_pos hse]
                exact append_author_ne_empty name
              · rw [if_neg hse]
                exact hse
          · rw [hd]
            rfl

/-- C6 (witness): the invariant applied at the document produced by the
fully successful environment `envAlice`. -/
theorem enrich_one_written_doc_invariant_witness :
    docAlice.bio_text ≠ ""
    ∧ ∃ data best, envAlice.search = Except.ok data
        ∧ pick_best_author (docsOf data) "Alice" none = some best
        ∧ docAlice.match_confidence = wcOf best :=
  enrich_one_written_doc_invariant envAlice "Alice" none "OL1A" docAlice
    (List.mem_singleton.mpr rfl)

/-- C9 (counterexample): the entirely empty candidate record is a chosen
best candidate whose key field is absent, yet `enrich_one` does not
proceed: Python's `if not best:` treats the empty dict as falsy, so the
result is `no_match` with no detail fetch and no upsert, contradicting
the claim that it proceeds to fetch and upsert under the empty id. -/
theorem enrich_one_empty_candidate_counterexample :
    pick_best_author [JVal.obj []] "x" none = some (JVal.obj [])
    ∧ pyGetV (JVal.obj []) "key" = JVal.null
    ∧ enrich_one envEmptyCand "x" none = ⟨Except.ok (noMatchObj "x"), [], []⟩ :=
  ⟨rfl, rfl, rfl⟩

/-- C9 (amended): when the chosen best candidate is a non-empty (truthy)
record whose `key` field is absent or null, the derived authority id is
the empty string and — provided the detail fetch and the upsert succeed
— `enrich_one` proceeds without error: it fetches detail for the empty
id and upserts a document keyed by the empty string; the id derivation
is total and rejects no missing key.  (For the entirely empty candidate
record, Python falsiness instead yields `no_match`.) -/
theorem enrich_one_missing_key_spec :
    ∀ (env : OLEnv) (name : String) (birth : Option Int)
      (data best detail : JVal),
      env.search = Except.ok data →
      pick_best_author (docsOf data) name birth = some best →
      pyTruthy best = true →
      pyGetV best "key" = JVal.null →
      env.fetch "" = Except.ok detail →
      (∀ dd, env.upsert "" dd = Except.ok ()) →
      olidOf best = ""
        ∧ (mkDoc env name birth best detail).author_id = ""
        ∧ (enrich_one env name birth).fetches = [""]
        ∧ (enrich_one env name birth).upserts
            = [("", mkDoc env name birth best detail)]
        ∧ (enrich_one env name birth).result
            = Except.ok (okObj "" (mkDoc env name birth best detail).name
                (mkDoc env name birth best detail).top_subjects) := by
  intro env name birth data best detail hs hp ht hk hf hu
  have holid : olidOf best = "" := by
    simp [olidOf, hk, pyOr, pyTruthy, asStr, splitOnChar]
  have henrich : enrich_one env name birth
      = ⟨Except.ok (okObj "" (mkDoc env name birth best detail).name
          (mkDoc env name birth best detail).top_subjects), [""],
        [("", mkDoc env name birth best detail)]⟩ := by
    simp [enrich_one, hs, hp, ht, holid, hf, hu]
  refine ⟨holid, ?_, ?_, ?_, ?_⟩
  · simp [mkDoc, holid]
  · rw [henrich]
  · rw [henrich]
  · rw [henrich]

/-- C9 (witness): the amended behaviour at a concrete candidate with a
name and work count but no key field. -/
theorem enrich_one_missing_key_spec_witness :
    olidOf candNoKey = ""
    ∧ (mkDoc envNoKey "X" none candNoKey (JVal.obj [])).author_id = ""
    ∧ (enrich_one envNoKey "X" none).fetches = [""]
    ∧ (enrich_one envNoKey "X" none).upserts
        = [("", mkDoc envNoKey "X" none candNoKey (JVal.obj []))]
    ∧ (enrich_one envNoKey "X" none).result
        = Except.ok (okObj "" (mkDoc envNoKey "X" none candNoKey (JVal.obj [])).name
            (mkDoc envNoKey "X" none candNoKey (JVal.obj [])).top_subjects) :=
  enrich_one_missing_key_spec envNoKey "X" none
    (JVal.obj [("docs", JVal.arr [candNoKey])]) candNoKey (JVal.obj [])
    rfl rfl rfl rfl rfl (fun _ => rfl)

theorem pageLoop_fst (f : Nat → Except String Unit) (limit : Nat) :
    ∀ (bs : List Nat) (p : Nat) (e : List (Nat × String)),
      p + bs.length ≤ limit → (pageLoop f limit bs p e).1 = p + bs.length := by
  intro bs
  induction bs with
  | nil =>
    intro p e h
    simp [pageLoop]
  | cons b bs ih =>
    intro p e h
    simp only [List.length_cons] at h
    have hlt : ¬ limit ≤ p := by omega
    simp only [pageLoop]
    rw [if_neg hlt]
    cases hfb : f b with
    | ok u =>
      rw [ih (p + 1) e (by omega)]
      simp only [List.length_cons]
      omega
    | error msg =>
      rw [ih (p + 1) (e ++ [(b, msg)]) (by omega)]
      simp only [List.length_cons]
      omega

theorem pageLoop_fst_indep (f g : Nat → Except String Unit) (limit : Nat) :
    ∀ (bs : List Nat) (p : Nat) (e1 e2 : List (Nat × String)),
      (pageLoop f limit bs p e1).1 = (pageLoop g limit bs p e2).1 := by
  intro bs
  induction bs with
  | nil =>
    intro p e1 e2
    rfl
  | cons b bs ih =>
    intro p e1 e2
    simp only [pageLoop]
    by_cases hl : limit ≤ p
    · rw [if_pos hl, if_pos hl]
    · rw [if_neg hl, if_neg hl]
      cases hfb : f b <;> cases hgb : g b <;> exact ih (p + 1) _ _

theorem batchGo_stop (f : Nat → Except String Unit) (keys : List Nat)
    (limit : Nat) :
    ∀ (fuel p : Nat) (a : Option Nat) (e : List (Nat × String)),
      ¬ p < limit → batchGo f keys limit fuel p a e = ⟨p, a, e, false⟩ := by
  intro fuel p a e h
  cases fuel with
  | zero => rfl
  | succ n =>
    simp only [batchGo]
    rw [if_neg h]

theorem filter_lt_drop_of_sorted :
    ∀ (L : List Nat), L.Sorted (· < ·) → ∀ (n b : Nat),
      (L.take n).getLast? = some b →
      L.filter (fun k => decide (b < k)) = L.drop n := by
  intro L
  induction L with
  | nil =>
    intro _ n b h
    rw [List.take_nil] at h
    simp at h
  | cons x xs ih =>
    intro hsort n b h
    rcases n with _ | n
    · simp at h
    · rw [List.take_succ_cons] at h
      have hsort_tail : xs.Sorted (· < ·) := hsort.of_cons
      rcases htk : xs.take n with _ | ⟨y, ys⟩
      · rw [htk] at h
        simp only [List.getLast?_singleton] at h
        obtain rfl : x = b := by injection h
        have hxs_cases : n = 0 ∨ xs = [] := List.take_eq_nil_iff.mp htk
        rcases hxs_cases with hn | hxs
        · subst hn
          rw [List.drop_succ_cons, List.drop_zero]
          rw [List.filter_cons_of_neg (by simp)]
          exact List.filter_eq_self.mpr
            (fun y hy => by
              simp only [decide_eq_true_eq]
              exact List.rel_of_sorted_cons hsort y hy)
        · subst hxs
          simp
      · rw [htk] at h
        rw [List.getLast?_cons_cons] at h
        have hfilter := ih hsort_tail n b (by rw [htk]; exact h)
        have hbmem : b ∈ xs := by
          have h1 : b ∈ xs.take n := by
            rw [htk]
            exact List.mem_of_mem_getLast? (Option.mem_def.mpr h)
          exact List.take_subset n xs h1
        have hxb : x < b := List.rel_of_sorted_cons hsort b hbmem
        rw [List.drop_succ_cons]
        rw [List.filter_cons_of_neg (by simp; omega)]
        exact hfilter

theorem remAfter_sorted {keys : List Nat} (hs : keys.Sorted (· < ·)) :
    ∀ c : Option Nat, (remAfter keys c).Sorted (· < ·) := by
  intro c
  cases c with
  | none => exact hs
  | some a => exact hs.filter _

theorem drop_min_length {α : Type} (l : List α) (n : Nat) :
    l.drop (min n l.length) = l.drop n := by
  rcases le_total n l.length with h | h
  · rw [min_eq_left h]
  · rw [min_eq_right h, List.drop_eq_nil_of_le h, List.drop_eq_nil_of_le le_rfl]

theorem remAfter_advance {keys : List Nat} (hs : keys.Sorted (· < ·)) :
    ∀ (c : Option Nat) (n b : Nat),
      ((remAfter keys c).take n).getLast? = some b →
      remAfter keys (some b) = (remAfter keys c).drop n := by
  intro c n b h
  cases c with
  | none => exact filter_lt_drop_of_sorted keys hs n b h
  | some a =>
    have hrs : (remAfter keys (some a)).Sorted (· < ·) := remAfter_sorted hs _
    have hba : a < b := by
      have hbmem : b ∈ remAfter keys (some a) :=
        List.take_subset n _ (List.mem_of_mem_getLast? (Option.mem_def.mpr h))
      simp only [remAfter, List.mem_filter, decide_eq_true_eq] at hbmem
      exact hbmem.2
    show keys.filter (fun k => decide (b < k)) = _
    have hff : (remAfter keys (some a)).filter (fun k => decide (b < k))
        = keys.filter (fun k => decide (b < k)) := by
      show (keys.filter (fun k => decide (a < k))).filter (fun k => decide (b < k))
        = keys.filter (fun k => decide (b < k))
      rw [List.filter_filter]
      exact List.filter_congr (fun k _ => by
        by_cases hbk : b < k
        · have hak : a < k := by omega
          simp [hbk, hak]
        · simp [hbk])
    rw [← hff]
    exact filter_lt_drop_of_sorted _ hrs n b h

theorem batchGo_invariant (f : Nat → Except String Unit) {keys : List Nat}
    (hs : keys.Sorted (· < ·)) (limit : Nat) :
    ∀ (fuel p : Nat) (a : Option Nat) (e : List (Nat × String)),
      p < limit → limit - p ≤ fuel →
      (batchGo f keys limit fuel p a e).processed
          = p + min (limit - p) (remAfter keys a).length
        ∧ ((batchGo f keys limit fuel p a e).next = none
            ↔ (remAfter keys a).length < limit - p)
        ∧ ((batchGo f keys limit fuel p a e).exhausted = true
            ↔ (remAfter keys a).length < limit - p)
        ∧ (∀ b, (batchGo f keys limit fuel p a e).next = some b →
            remAfter keys (some b) = (remAfter keys a).drop (limit - p)) := by
  intro fuel
  induction fuel with
  | zero =>
    intro p a e hp hf
    omega
  | succ fuel ih =>
    intro p a e hp hf
    rcases htk : (remAfter keys a).take (min 1000 (limit - p)) with _ | ⟨b0, bs⟩
    · have hrem : remAfter keys a = [] := by
        rcases hr : remAfter keys a with _ | ⟨x, xs⟩
        · rfl
        · rw [hr] at htk
          obtain ⟨k, hk⟩ : ∃ k, min 1000 (limit - p) = k + 1 :=
            ⟨min 1000 (limit - p) - 1, by omega⟩
          rw [hk, List.take_succ_cons] at htk
          cases htk
      have hred : batchGo f keys limit (fuel + 1) p a e = ⟨p, none, e, true⟩ := by
        simp [batchGo, htk, hp]
      rw [hred, hrem]
      refine ⟨by simp, ?_, ?_, ?_⟩
      · simp only [List.length_nil]
        constructor
        · intro _
          omega
        · intro _
          trivial
      · simp only [List.length_nil]
        constructor
        · intro _
          omega
        · intro _
          trivial
      · intro b hb
        simp at hb
    · obtain ⟨lastb, hlastb⟩ : ∃ lastb, (b0 :: bs).getLast? = some lastb :=
        ⟨(b0 :: bs).getLast (by simp),
          List.getLast?_eq_getLast_of_ne_nil (by simp)⟩
      rcases hpl : pageLoop f limit (b0 :: bs) p e with ⟨p2, e2⟩
      have hlen : (b0 :: bs).length
          = min (min 1000 (limit - p)) (remAfter keys a).length := by
        rw [← htk, List.length_take]
      have hL1 : 1 ≤ (b0 :: bs).length := by simp
      have hLle : (b0 :: bs).length ≤ limit - p := by
        have h2 := Nat.min_le_right 1000 (limit - p)
        have h3 := Nat.min_le_left (min 1000 (limit - p))
          (remAfter keys a).length
        omega
      have hLlen : (b0 :: bs).length ≤ (remAfter keys a).length := by
        have h3 := Nat.min_le_right (min 1000 (limit - p))
          (remAfter keys a).length
        omega
      have hp2 : p2 = p + (b0 :: bs).length := by
        have hfst := pageLoop_fst f limit (b0 :: bs) p e (by omega)
        rw [hpl] at hfst
        exact hfst
      have hadv : remAfter keys (some lastb)
          = (remAfter keys a).drop ((b0 :: bs).length) := by
        have h1 := remAfter_advance hs a (min 1000 (limit - p)) lastb
          (by rw [htk]; exact hlastb)
        rw [h1, ← drop_min_length (remAfter keys a) (min 1000 (limit - p)),
          ← hlen]
      have hred : batchGo f keys limit (fuel + 1) p a e
          = batchGo f keys limit fuel p2 (some lastb) e2 := by
        simp [batchGo, htk, hpl, hlastb, hp]
      rw [hred]
      have hdroplen : ((remAfter keys a).drop ((b0 :: bs).length)).length
          = (remAfter keys a).length - (b0 :: bs).length :=
        List.length_drop _ _
      by_cases hcont : p2 < limit
      · have hfuel2 : limit - p2 ≤ fuel := by omega
        obtain ⟨ih1, ih2, ih3, ih4⟩ := ih p2 (some lastb) e2 hcont hfuel2
        rw [hadv, hdroplen] at ih1 ih2 ih3
        rw [hadv] at ih4
        refine ⟨?_, ?_, ?_, ?_⟩
        · rw [ih1]
          omega
        · rw [ih2]
          omega
        · rw [ih3]
          omega
        · intro b hb
          have h4 := ih4 b hb
          rw [List.drop_drop] at h4
          have harith : (b0 :: bs).length + (limit - p2) = limit - p := by omega
          rw [harith] at h4
          exact h4
      · have hstop := batchGo_stop f keys limit fuel p2 (some lastb) e2 hcont
        rw [hstop]
        have hp2lim : p2 = limit := by omega
        have hLlim : (b0 :: bs).length = limit - p := by omega
        have hlenge : limit - p ≤ (remAfter keys a).length := by omega
        refine ⟨?_, ?_, ?_, ?_⟩
        · show p2 = p + min (limit - p) (remAfter keys a).length
          omega
        · show (some lastb = none) ↔ (remAfter keys a).length < limit - p
          constructor
          · intro hcon
            exact absurd hcon (by simp)
          · intro hlt
            exact absurd hlt (by omega)
        · show (false = true) ↔ (remAfter keys a).length < limit - p
          constructor
          · intro hcon
            exact absurd hcon (by simp)
          · intro hlt
            exact absurd hlt (by omega)
        · intro b hb
          have hbb : lastb = b := by injection hb
          subst hbb
          rw [hadv, hLlim]

theorem batchGo_indep (f g : Nat → Except String Unit) (keys : List Nat)
    (limit : Nat) :
    ∀ (fuel p : Nat) (a : Option Nat) (e1 e2 : List (Nat × String)),
      (batchGo f keys limit fuel p a e1).processed
          = (batchGo g keys limit fuel p a e2).processed
        ∧ (batchGo f keys limit fuel p a e1).next
            = (batchGo g keys limit fuel p a e2).next
        ∧ (batchGo f keys limit fuel p a e1).exhausted
            = (batchGo g keys limit fuel p a e2).exhausted := by
  intro fuel
  induction fuel with
  | zero =>
    intro p a e1 e2
    exact ⟨rfl, rfl, rfl⟩
  | succ fuel ih =>
    intro p a e1 e2
    by_cases hp : p < limit
    · rcases htk : (remAfter keys a).take (min 1000 (limit - p)) with _ | ⟨b0, bs⟩
      · have hr1 : batchGo f keys limit (fuel + 1) p a e1 = ⟨p, none, e1, true⟩ := by
          simp [batchGo, htk, hp]
        have hr2 : batchGo g keys limit (fuel + 1) p a e2 = ⟨p, none, e2, true⟩ := by
          simp [batchGo, htk, hp]
        rw [hr1, hr2]
        exact ⟨rfl, rfl, rfl⟩
      · obtain ⟨lastb, hlastb⟩ : ∃ lastb, (b0 :: bs).getLast? = some lastb :=
          ⟨(b0 :: bs).getLast (by simp),
            List.getLast?_eq_getLast_of_ne_nil (by simp)⟩
        rcases hpl1 : pageLoop f limit (b0 :: bs) p e1 with ⟨p2, e2f⟩
        rcases hpl2 : pageLoop g limit (b0 :: bs) p e2 with ⟨p3, e3g⟩
        have hpp : p2 = p3 := by
          have h := pageLoop_fst_indep f g limit (b0 :: bs) p e1 e2
          rw [hpl1, hpl2] at h
          exact h
        subst hpp
        have hr1 : batchGo f keys limit (fuel + 1) p a e1
            = batchGo f keys limit fuel p2 (some lastb) e2f := by
          simp [batchGo, htk, hpl1, hlastb, hp]
        have hr2 : batchGo g keys limit (fuel + 1) p a e2
            = batchGo g keys limit fuel p2 (some lastb) e3g := by
          simp [batchGo, htk, hpl2, hlastb, hp]
        rw [hr1, hr2]
        exact ih p2 (some lastb) e2f e3g
    · rw [batchGo_stop f keys limit (fuel + 1) p a e1 hp,
        batchGo_stop g keys limit (fuel + 1) p a e2 hp]
      exact ⟨rfl, rfl, rfl⟩

set_option maxRecDepth 10000 in
/-- C2: the backfill driver terminates, and returns a null `next_cursor`
exactly when it stopped because the aggregation reported an empty page
or no next key (equivalently, when fewer than `limit` keys remained
after the start cursor); its processed count is `min limit` of the
remaining keys; when it returns a non-null cursor it processed exactly
`limit` items and the cursor resumes precisely at the first unprocessed
key; in particular with 1500 distinct keys and limit 1000 the first call
returns processed 1000 with cursor 999 and the call seeded with that
cursor returns processed 500 with a null cursor. -/
theorem enrich_batch_cursor_spec :
    (∀ (f : Nat → Except String Unit) (keys : List Nat),
      keys.Sorted (· < ·) → ∀ limit : Nat, 1 ≤ limit → ∀ c : Option Nat,
      ((enrich_batch f keys limit c).next = none
          ↔ (enrich_batch f keys limit c).exhausted = true)
        ∧ ((enrich_batch f keys limit c).next = none
            ↔ (remAfter keys c).length < limit)
        ∧ (enrich_batch f keys limit c).processed
            = min limit (remAfter keys c).length
        ∧ (∀ b, (enrich_batch f keys limit c).next = some b →
            (enrich_batch f keys limit c).processed = limit
              ∧ remAfter keys (some b) = (remAfter keys c).drop limit))
    ∧ enrich_batch allOk (List.range 1500) 1000 none
        = ⟨1000, some 999, [], false⟩
    ∧ enrich_batch allOk (List.range 1500) 1000 (some 999)
        = ⟨500, none, [], true⟩ := by
  refine ⟨?_, by decide, by decide⟩
  intro f keys hs limit hlim c
  simp only [enrich_batch]
  obtain ⟨h1, h2, h3, h4⟩ := batchGo_invariant f hs limit limit 0 c []
    (by omega) (by omega)
  have hsub : limit - 0 = limit := by omega
  rw [hsub] at h1 h2 h3 h4
  have h1x : (batchGo f keys limit limit 0 c []).processed
      = min limit (remAfter keys c).length := by
    rw [h1]
    omega
  refine ⟨⟨fun h => h3.mpr (h2.mp h), fun h => h2.mpr (h3.mp h)⟩, h2, h1x, ?_⟩
  intro b hb
  refine ⟨?_, h4 b hb⟩
  have hnl : ¬ (remAfter keys c).length < limit := by
    intro hl
    rw [h2.mpr hl] at hb
    simp at hb
  rw [h1x]
  omega

/-- C2 (witness): the cursor characterization applied at the two-key
store with keys 3 and 5 and limit 1, starting from no cursor. -/
theorem enrich_batch_cursor_spec_witness :
    ((enrich_batch allOk [3, 5] 1 none).next = none
        ↔ (enrich_batch allOk [3, 5] 1 none).exhausted = true)
      ∧ ((enrich_batch allOk [3, 5] 1 none).next = none
          ↔ (remAfter [3, 5] none).length < 1)
      ∧ (enrich_batch allOk [3, 5] 1 none).processed
          = min 1 (remAfter [3, 5] none).length
      ∧ (∀ b, (enrich_batch allOk [3, 5] 1 none).next = some b →
          (enrich_batch allOk [3, 5] 1 none).processed = 1
            ∧ remAfter [3, 5] (some b) = (remAfter [3, 5] none).drop 1) :=
  enrich_batch_cursor_spec.1 allOk [3, 5]
    (by simp [List.sorted_cons]) 1 (by omega) none

/-- C3: a single item's failure does not abort the batch: the processed
count, resumption cursor and exhaustion flag of `enrich_batch` are
identical for any two per-item outcome oracles (every item is wrapped in
try/except and `processed` is incremented regardless of its outcome),
and the driver returns a result rather than propagating the item's
exception; concretely, with 10 keys, a limit of 20 and the oracle that
raises on key 6, the batch still processes all 10 keys, records the one
failure, and reports exhaustion with a null cursor. -/
theorem enrich_batch_failure_isolation :
    (∀ (fo go : Nat → Except String Unit) (keys : List Nat) (limit : Nat)
        (c : Option Nat),
      (enrich_batch fo keys limit c).processed
          = (enrich_batch go keys limit c).processed
        ∧ (enrich_batch fo keys limit c).next
            = (enrich_batch go keys limit c).next
        ∧ (enrich_batch fo keys limit c).exhausted
            = (enrich_batch go keys limit c).exhausted)
    ∧ enrich_batch failOn6 (List.range 10) 20 none
        = ⟨10, none, [(6, "boom")], true⟩
    ∧ enrich_batch allOk (List.range 10) 20 none = ⟨10, none, [], true⟩ := by
  refine ⟨?_, by decide, by decide⟩
  intro fo go keys limit c
  exact batchGo_indep fo go keys limit limit 0 c [] []
